import Mathlib

/-!
Verification of the agent/tool layer of swarmgo (src/agent.go).

The Go code is shallowly embedded: Go maps of type map of string to
interface value become association lists over a JSON value type, the
reflected JSON schema of a typed argument shape (produced in Go by the
invopop jsonschema reflector with RequiredFromJSONSchemaTags, no
AllowAdditionalProperties and DoNotReference) is modelled by an explicit
field-list description of the shape, and the external json Marshal and
Unmarshal at the concrete argument type are passed as explicit encode and
decode parameters. Go mutation of the receiver in the builder methods is
modelled by state passing: each method returns the updated receiver value.
-/

namespace SwarmGo

/-- JSON values, the model of the Go type interface-value as produced by
json.Unmarshal: objects are association lists in key order. -/
inductive JSON where
  | null
  | bool (b : Bool)
  | num (n : Int)
  | str (s : String)
  | arr (elems : List JSON)
  | obj (fields : List (String × JSON))

/-- Generic string-keyed argument map, the model of the Go type
map of string to interface value. -/
abbrev ArgsMap := List (String × JSON)

/-- Context variables threaded through every tool invocation. -/
abbrev ContextVariables := List (String × JSON)

/-- Serialized bytes, the output type of json.Marshal. -/
abbrev Bytes := String

/-- Modelled from the spec: the Result type is not under src (only its uses
in agent.go are). Per section 3 of the spec it holds a success flag, an
abstract data payload, an optional error and an optional next-agent
reference; the next-agent reference is modelled by name to avoid a
circular type. -/
structure Result where
  Success : Bool := false
  Data : JSON := JSON.null
  Error : Option String := none
  NextAgentName : Option String := none

/-- The type of a typed tool executor, src/agent.go line 24. -/
def AgentFunctionExecutor (I : Type) := I → ContextVariables → Result

/-- AgentFunction, src/agent.go lines 27 to 32. -/
structure AgentFunction (I : Type) where
  Name : String
  Description : String
  params : List (String × JSON)
  executor : AgentFunctionExecutor I

/-- Modelled from the spec: the llm.Function type is not under src; its
fields Name, Description and Parameters are visible from the use in
FunctionToDefinition, src/agent.go lines 36 to 40. -/
structure LLMFunction where
  Name : String
  Description : String
  Parameters : List (String × JSON)

/-- FunctionToDefinition, src/agent.go lines 35 to 41. -/
def FunctionToDefinition {I : Type} (af : AgentFunction I) : LLMFunction :=
  { Name := af.Name, Description := af.Description, Parameters := af.params }

/-- One field of a typed argument shape: its JSON name, its schema
primitive type (integer, string, boolean, ...), whether its jsonschema tag
marks it required, and the optional description from that tag. This is the
data the Go reflector reads off the struct type I. -/
structure FieldSpec where
  name : String
  ty : String
  required : Bool
  description : Option String
  deriving DecidableEq, Repr

/-- A typed argument shape: its fields in declaration order. -/
abbrev Shape := List FieldSpec

/-- The entries of the per-field schema object the reflector emits: the
primitive type, plus the description when the tag declares one. -/
def fieldSchemaFields (f : FieldSpec) : List (String × JSON) :=
  ("type", JSON.str f.ty) ::
    (match f.description with
     | some d => [("description", JSON.str d)]
     | none => [])

/-- The per-field schema object. -/
def fieldSchema (f : FieldSpec) : JSON :=
  JSON.obj (fieldSchemaFields f)

/-- Names of the fields marked required, in declaration order. -/
def requiredNames (s : Shape) : List String :=
  (s.filter (fun f => f.required)).map (fun f => f.name)

/-- The properties object: each field mapped to its per-field schema. -/
def propertiesJSON (s : Shape) : JSON :=
  JSON.obj (s.map (fun f => (f.name, fieldSchema f)))

/-- The schema map obtained in src/agent.go lines 51 to 62: reflect the
zero value of I, marshal the schema to bytes and unmarshal into a generic
map. With the reflector options used there the map holds the metadata keys
dollar-schema and dollar-id, additionalProperties false, the properties
object, the required list when at least one field is required (the Go
required slice carries omitempty, so the key is absent otherwise), and
type object. The dollar-id value abstracts the snake-cased Go type name,
which a Shape does not carry; no claim depends on it. -/
def reflectSchemaMap (s : Shape) : List (String × JSON) :=
  [("$schema", JSON.str "https://json-schema.org/draft/2020-12/schema"),
   ("$id", JSON.str "https://github.com/prathyushnallamothu/swarmgo"),
   ("additionalProperties", JSON.bool false),
   ("properties", propertiesJSON s)] ++
  (if (requiredNames s).isEmpty then []
   else [("required", JSON.arr ((requiredNames s).map JSON.str))]) ++
  [("type", JSON.str "object")]

/-- Go string indexing k[0] modelled totally: none models the index
out-of-range panic on an empty string. -/
def goFirstByte (k : String) : Option Char :=
  k.data.head?

/-- The metadata filter of src/agent.go lines 64 to 72: keep every entry
whose key does not begin with the dollar character. Indexing the first
byte of a key goes through goFirstByte, so the result is none exactly when
some key is empty, which in Go would panic. -/
def stripMetaKeys : List (String × JSON) → Option (List (String × JSON))
  | [] => some []
  | (k, v) :: rest =>
    match goFirstByte k with
    | none => none
    | some c =>
      match stripMetaKeys rest with
      | none => none
      | some rest' => some (if c = '$' then rest' else (k, v) :: rest')

/-- The type-erased adapter closure of src/agent.go lines 78 to 95:
marshal the generic argument map, unmarshal the bytes into the concrete
typed shape, and only then call the typed executor; either failure yields
a Result with Success false and a descriptive error. The json Marshal and
Unmarshal at the types involved are external library calls, passed here as
the marshal and unmarshal parameters. -/
def erasedExecutor {I : Type} (marshal : ArgsMap → Except String Bytes)
    (unmarshal : Bytes → Except String I)
    (executor : AgentFunctionExecutor I) : AgentFunctionExecutor ArgsMap :=
  fun args contextVariables =>
    match marshal args with
    | Except.error e =>
      { Success := false, Error := some ("error marshaling arguments: " ++ e) }
    | Except.ok argsBytes =>
      match unmarshal argsBytes with
      | Except.error e =>
        { Success := false, Error := some ("error unmarshaling arguments: " ++ e) }
      | Except.ok typedArgs => executor typedArgs contextVariables

/-- NewAgentFunction, src/agent.go lines 44 to 97. The reflected shape of
the type parameter I is passed explicitly, since Lean has no runtime
reflection; likewise the external json Marshal and Unmarshal at type I.
The marshal-the-schema error branches at lines 55 to 62 are dead for a
reflected struct schema (a map of plain JSON values always marshals and
unmarshals), so the only failure modelled is the metadata filter panic on
an empty key, returned as none. -/
def NewAgentFunction {I : Type} (shape : Shape) (name description : String)
    (marshal : ArgsMap → Except String Bytes)
    (unmarshal : Bytes → Except String I)
    (executor : AgentFunctionExecutor I) : Option (AgentFunction ArgsMap) :=
  match stripMetaKeys (reflectSchemaMap shape) with
  | none => none
  | some params =>
    some { Name := name
           Description := description
           params := params
           executor := erasedExecutor marshal unmarshal executor }

/-- Modelled from the spec: the LLMProvider type of the llm package is not
under src; it is an abstract provider reference carried by the Agent. -/
structure LLMProvider where
  id : Nat
  deriving DecidableEq, Repr

/-- Modelled from the spec: the ClientConfig type is not under src; it is
abstract provider-specific configuration carried by the Agent. -/
structure ClientConfig where
  id : Nat
  deriving DecidableEq, Repr

/-- Modelled from the spec: the MemoryStore type is not under src. Per
sections 2 and 6 of the spec it is a bounded append log with a capacity
chosen at construction. -/
structure MemoryStore where
  capacity : Nat
  entries : List String
  deriving DecidableEq, Repr

/-- Modelled from the spec: NewMemoryStore is not under src; per section 6
of the spec it constructs an empty store of the given capacity. -/
def NewMemoryStore (n : Nat) : MemoryStore :=
  { capacity := n, entries := [] }

/-- Agent, src/agent.go lines 12 to 22. Go nil pointers and nil function
values are modelled by Option. -/
structure Agent where
  Name : String
  Model : String
  Provider : LLMProvider
  Config : Option ClientConfig
  Instructions : String
  InstructionsFunc : Option (ContextVariables → String)
  Functions : List (AgentFunction ArgsMap)
  Memory : Option MemoryStore
  ParallelToolCalls : Bool

/-- NewAgent, src/agent.go lines 100 to 109: the Go struct literal names
Name, Model, Provider and Memory; every other field takes its Go zero
value. -/
def NewAgent (name model : String) (provider : LLMProvider) : Agent :=
  { Name := name
    Model := model
    Provider := provider
    Config := none
    Instructions := ""
    InstructionsFunc := none
    Functions := []
    Memory := some (NewMemoryStore 100)
    ParallelToolCalls := false }

/-- WithFunctions, src/agent.go lines 112 to 115: appends to the Functions
slice and returns the receiver. -/
def Agent.WithFunctions (a : Agent) (functions : List (AgentFunction ArgsMap)) : Agent :=
  { a with Functions := a.Functions ++ functions }

/-- WithConfig, src/agent.go lines 118 to 121. -/
def Agent.WithConfig (a : Agent) (config : Option ClientConfig) : Agent :=
  { a with Config := config }

/-- WithInstructions, src/agent.go lines 124 to 127. -/
def Agent.WithInstructions (a : Agent) (instructions : String) : Agent :=
  { a with Instructions := instructions }

/-- WithInstructionsFunc, src/agent.go lines 130 to 133. -/
def Agent.WithInstructionsFunc (a : Agent) (f : Option (ContextVariables → String)) : Agent :=
  { a with InstructionsFunc := f }

/-- WithParallelToolCalls, src/agent.go lines 136 to 139. -/
def Agent.WithParallelToolCalls (a : Agent) (enabled : Bool) : Agent :=
  { a with ParallelToolCalls := enabled }

/-- The parameter map NewAgentFunction ends up storing: the reflected
schema map with the two metadata keys removed. Proved equal to the actual
pipeline in stripMetaKeys_reflectSchemaMap. -/
def reflectParams (s : Shape) : List (String × JSON) :=
  [("additionalProperties", JSON.bool false),
   ("properties", propertiesJSON s)] ++
  (if (requiredNames s).isEmpty then []
   else [("required", JSON.arr ((requiredNames s).map JSON.str))]) ++
  [("type", JSON.str "object")]

theorem stripMetaKeys_reflectSchemaMap (s : Shape) :
    stripMetaKeys (reflectSchemaMap s) = some (reflectParams s) := by
  unfold reflectSchemaMap reflectParams
  cases h : (requiredNames s).isEmpty <;> simp [h] <;> rfl

theorem newAgentFunction_eq_some {I : Type} (s : Shape) (n d : String)
    (marshal : ArgsMap → Except String Bytes) (unmarshal : Bytes → Except String I)
    (executor : AgentFunctionExecutor I) :
    NewAgentFunction s n d marshal unmarshal executor
      = some { Name := n, Description := d, params := reflectParams s,
               executor := erasedExecutor marshal unmarshal executor } := by
  unfold NewAgentFunction
  rw [stripMetaKeys_reflectSchemaMap]

/-- C6: WithFunctions appends the given tools, in order, to the end of the
existing Functions list, leaves every other field of the agent unchanged,
and returns the updated receiver (Go returns the mutated receiver pointer;
the state-passing model returns the updated agent value). -/
theorem withFunctions_appends (a : Agent) (fs : List (AgentFunction ArgsMap)) :
    (a.WithFunctions fs).Functions = a.Functions ++ fs
    ∧ (a.WithFunctions fs).Name = a.Name
    ∧ (a.WithFunctions fs).Model = a.Model
    ∧ (a.WithFunctions fs).Provider = a.Provider
    ∧ (a.WithFunctions fs).Config = a.Config
    ∧ (a.WithFunctions fs).Instructions = a.Instructions
    ∧ (a.WithFunctions fs).InstructionsFunc = a.InstructionsFunc
    ∧ (a.WithFunctions fs).Memory = a.Memory
    ∧ (a.WithFunctions fs).ParallelToolCalls = a.ParallelToolCalls :=
  ⟨rfl, rfl, rfl, rfl, rfl, rfl, rfl, rfl, rfl⟩

/-- A tool used to exhibit duplicate registration. -/
def dupFn : AgentFunction ArgsMap :=
  { Name := "testFunction", Description := "A test function", params := [],
    executor := fun _ _ => {} }

/-- An agent that already holds dupFn, so its tool names are distinct. -/
def dupAgent : Agent :=
  { Name := "TestAgent", Model := "test-model", Provider := { id := 0 },
    Config := none, Instructions := "", InstructionsFunc := none,
    Functions := [dupFn], Memory := none, ParallelToolCalls := false }

/-- C5 counterexample: an agent whose single registered tool is named
testFunction has pairwise-distinct tool names, yet WithFunctions with a
second tool of the same name yields a Functions list with two entries named
testFunction, so distinctness of names is not preserved by registration. -/
theorem withFunctions_duplicate_name :
    (dupAgent.Functions.map (fun f => f.Name)).Nodup
    ∧ ¬ ((dupAgent.WithFunctions [dupFn]).Functions.map (fun f => f.Name)).Nodup := by
  constructor
  · simp [dupAgent]
  · simp [dupAgent, dupFn, Agent.WithFunctions]

/-- C5 (amended): WithFunctions performs no name-based deduplication, it
only appends; hence the resulting Functions list has pairwise-distinct
names exactly when the previous names followed by the new names are
pairwise distinct. Registering a tool whose name already exists does
produce a registry with two entries of that name. -/
theorem withFunctions_nodup_iff (a : Agent) (fs : List (AgentFunction ArgsMap)) :
    ((a.WithFunctions fs).Functions.map (fun f => f.Name)).Nodup
      ↔ ((a.Functions ++ fs).map (fun f => f.Name)).Nodup := by
  simp [Agent.WithFunctions]

/-- C8: NewAgent sets Name, Model and Provider from its arguments, installs
a fresh memory store of capacity 100, and leaves every other field at its
Go zero value: no functions, no config, empty instructions, no dynamic
instructions function, parallel tool calls disabled. -/
theorem newAgent_fields (name model : String) (provider : LLMProvider) :
    (NewAgent name model provider).Name = name
    ∧ (NewAgent name model provider).Model = model
    ∧ (NewAgent name model provider).Provider = provider
    ∧ (NewAgent name model provider).Memory = some (NewMemoryStore 100)
    ∧ (NewMemoryStore 100).capacity = 100
    ∧ (NewMemoryStore 100).entries = []
    ∧ (NewAgent name model provider).Functions = []
    ∧ (NewAgent name model provider).Config = none
    ∧ (NewAgent name model provider).Instructions = ""
    ∧ (NewAgent name model provider).InstructionsFunc = none
    ∧ (NewAgent name model provider).ParallelToolCalls = false :=
  ⟨rfl, rfl, rfl, rfl, rfl, rfl, rfl, rfl, rfl, rfl, rfl⟩

/-- C10: each single-field builder sets exactly its own field to the given
argument and leaves the eight remaining Agent fields untouched, returning
the updated receiver. -/
theorem builders_frame (a : Agent) (c : Option ClientConfig) (i : String)
    (f : Option (ContextVariables → String)) (b : Bool) :
    ((a.WithConfig c).Config = c
      ∧ (a.WithConfig c).Name = a.Name
      ∧ (a.WithConfig c).Model = a.Model
      ∧ (a.WithConfig c).Provider = a.Provider
      ∧ (a.WithConfig c).Instructions = a.Instructions
      ∧ (a.WithConfig c).InstructionsFunc = a.InstructionsFunc
      ∧ (a.WithConfig c).Functions = a.Functions
      ∧ (a.WithConfig c).Memory = a.Memory
      ∧ (a.WithConfig c).ParallelToolCalls = a.ParallelToolCalls)
    ∧ ((a.WithInstructions i).Instructions = i
      ∧ (a.WithInstructions i).Name = a.Name
      ∧ (a.WithInstructions i).Model = a.Model
      ∧ (a.WithInstructions i).Provider = a.Provider
      ∧ (a.WithInstructions i).Config = a.Config
      ∧ (a.WithInstructions i).InstructionsFunc = a.InstructionsFunc
      ∧ (a.WithInstructions i).Functions = a.Functions
      ∧ (a.WithInstructions i).Memory = a.Memory
      ∧ (a.WithInstructions i).ParallelToolCalls = a.ParallelToolCalls)
    ∧ ((a.WithInstructionsFunc f).InstructionsFunc = f
      ∧ (a.WithInstructionsFunc f).Name = a.Name
      ∧ (a.WithInstructionsFunc f).Model = a.Model
      ∧ (a.WithInstructionsFunc f).Provider = a.Provider
      ∧ (a.WithInstructionsFunc f).Config = a.Config
      ∧ (a.WithInstructionsFunc f).Instructions = a.Instructions
      ∧ (a.WithInstructionsFunc f).Functions = a.Functions
      ∧ (a.WithInstructionsFunc f).Memory = a.Memory
      ∧ (a.WithInstructionsFunc f).ParallelToolCalls = a.ParallelToolCalls)
    ∧ ((a.WithParallelToolCalls b).ParallelToolCalls = b
      ∧ (a.WithParallelToolCalls b).Name = a.Name
      ∧ (a.WithParallelToolCalls b).Model = a.Model
      ∧ (a.WithParallelToolCalls b).Provider = a.Provider
      ∧ (a.WithParallelToolCalls b).Config = a.Config
      ∧ (a.WithParallelToolCalls b).Instructions = a.Instructions
      ∧ (a.WithParallelToolCalls b).InstructionsFunc = a.InstructionsFunc
      ∧ (a.WithParallelToolCalls b).Functions = a.Functions
      ∧ (a.WithParallelToolCalls b).Memory = a.Memory) :=
  ⟨⟨rfl, rfl, rfl, rfl, rfl, rfl, rfl, rfl, rfl⟩,
   ⟨rfl, rfl, rfl, rfl, rfl, rfl, rfl, rfl, rfl⟩,
   ⟨rfl, rfl, rfl, rfl, rfl, rfl, rfl, rfl, rfl⟩,
   ⟨rfl, rfl, rfl, rfl, rfl, rfl, rfl, rfl, rfl⟩⟩

/-- C2: whenever marshaling the generic argument map succeeds and
unmarshaling the bytes into the concrete typed shape succeeds, the
type-erased adapter installed by NewAgentFunction returns exactly the
result of the user-supplied typed executor on the decoded value and the
given context variables. -/
theorem adapter_roundtrip_invokes_executor {I : Type} (s : Shape) (n d : String)
    (marshal : ArgsMap → Except String Bytes) (unmarshal : Bytes → Except String I)
    (executor : AgentFunctionExecutor I) (af : AgentFunction ArgsMap)
    (haf : NewAgentFunction s n d marshal unmarshal executor = some af)
    (args : ArgsMap) (cv : ContextVariables) (b : Bytes) (t : I)
    (hm : marshal args = Except.ok b) (hu : unmarshal b = Except.ok t) :
    af.executor args cv = executor t cv := by
  rw [newAgentFunction_eq_some] at haf
  obtain rfl := Option.some.inj haf
  simp [erasedExecutor, hm, hu]

/-- A typed argument shape mirroring TestFunctionArgsWithRequired from
src/swarm_test.go: one integer field arg1 marked required with a
description. -/
def wShape : Shape :=
  [{ name := "arg1", ty := "integer", required := true,
     description := some "This is a required argument" }]

/-- A stand-in for json.Marshal on argument maps that always succeeds. -/
def wMarshal : ArgsMap → Except String Bytes := fun _ => Except.ok "encoded"

/-- A stand-in for json.Unmarshal at a concrete typed shape. -/
def natUnmarshal : Bytes → Except String Nat := fun _ => Except.ok 7

/-- A concrete typed executor. -/
def natExec : AgentFunctionExecutor Nat :=
  fun nv _ => { Success := true, Data := JSON.num nv }

/-- The tool NewAgentFunction builds from wShape and natExec. -/
def wAf : AgentFunction ArgsMap :=
  { Name := "testFunction", Description := "A test function",
    params := reflectParams wShape,
    executor := erasedExecutor wMarshal natUnmarshal natExec }

/-- C2 witness: at the concrete shape, encoder, decoder and executor, both
encode and decode succeed and the adapter returns the typed executor
applied to the decoded value. -/
theorem adapter_roundtrip_witness :
    wMarshal [] = Except.ok "encoded" ∧ natUnmarshal "encoded" = Except.ok 7
    ∧ wAf.executor [] [] = natExec 7 [] :=
  ⟨rfl, rfl,
    adapter_roundtrip_invokes_executor wShape "testFunction" "A test function"
      wMarshal natUnmarshal natExec wAf (by rw [newAgentFunction_eq_some]; rfl)
      [] [] "encoded" 7 rfl rfl⟩

/-- C3: when marshaling the generic argument map fails, or when
unmarshaling into the concrete typed shape fails, the adapter returns a
Result whose Success flag is false and whose Error is a descriptive
non-none error, and its output does not depend on the user-supplied
executor (the executor is never invoked). The adapter is a total Lean
function, so no panic is possible in the model; the only Go panic site in
NewAgentFunction is the metadata filter, treated in the safety theorem for
stripMetaKeys. -/
theorem adapter_failure_returns_error_result {I : Type} (s : Shape) (n d : String)
    (marshal : ArgsMap → Except String Bytes) (unmarshal : Bytes → Except String I)
    (executor : AgentFunctionExecutor I) (af : AgentFunction ArgsMap)
    (haf : NewAgentFunction s n d marshal unmarshal executor = some af)
    (args : ArgsMap) (cv : ContextVariables) :
    (∀ e, marshal args = Except.error e →
      af.executor args cv
        = { Success := false, Data := JSON.null,
            Error := some ("error marshaling arguments: " ++ e),
            NextAgentName := none }
      ∧ ∀ executor2 : AgentFunctionExecutor I,
          af.executor args cv = erasedExecutor marshal unmarshal executor2 args cv)
    ∧ (∀ b e, marshal args = Except.ok b → unmarshal b = Except.error e →
      af.executor args cv
        = { Success := false, Data := JSON.null,
            Error := some ("error unmarshaling arguments: " ++ e),
            NextAgentName := none }
      ∧ ∀ executor2 : AgentFunctionExecutor I,
          af.executor args cv = erasedExecutor marshal unmarshal executor2 args cv) := by
  rw [newAgentFunction_eq_some] at haf
  obtain rfl := Option.some.inj haf
  constructor
  · intro e he
    constructor
    · simp [erasedExecutor, he]
    · intro executor2
      simp [erasedExecutor, he]
  · intro b e hb hu
    constructor
    · simp [erasedExecutor, hb, hu]
    · intro executor2
      simp [erasedExecutor, hb, hu]

/-- A stand-in for json.Marshal that fails. -/
def failMarshal : ArgsMap → Except String Bytes := fun _ => Except.error "boom"

/-- The tool built with the failing encoder. -/
def failAf : AgentFunction ArgsMap :=
  { Name := "testFunction", Description := "A test function",
    params := reflectParams wShape,
    executor := erasedExecutor failMarshal natUnmarshal natExec }

/-- C3 witness: with an encoder that fails on the empty argument map, the
adapter returns Success false and the descriptive marshaling error. -/
theorem adapter_failure_witness :
    failMarshal [] = Except.error "boom"
    ∧ failAf.executor [] []
        = { Success := false, Data := JSON.null,
            Error := some ("error marshaling arguments: " ++ "boom"),
            NextAgentName := none } :=
  ⟨rfl,
    ((adapter_failure_returns_error_result wShape "testFunction" "A test function"
        failMarshal natUnmarshal natExec failAf (by rw [newAgentFunction_eq_some]; rfl)
        [] []).1 "boom" rfl).1⟩

theorem goFirstByte_of_ne_empty {k : String} (hk : k ≠ "") :
    ∃ c, goFirstByte k = some c := by
  obtain ⟨data⟩ := k
  cases data with
  | nil => exact absurd rfl hk
  | cons c cs => exact ⟨c, rfl⟩

theorem stripMetaKeys_isSome {m : List (String × JSON)}
    (hm : ∀ p ∈ m, p.1 ≠ "") : (stripMetaKeys m).isSome = true := by
  induction m with
  | nil => rfl
  | cons q rest ih =>
    obtain ⟨k, v⟩ := q
    obtain ⟨c, hc⟩ := goFirstByte_of_ne_empty (hm (k, v) (List.mem_cons_self _ _))
    obtain ⟨r, hr⟩ :=
      Option.isSome_iff_exists.mp (ih (fun p hp => hm p (List.mem_cons_of_mem _ hp)))
    simp [stripMetaKeys, hc, hr]

/-- C9: the metadata filter indexes the first byte of each key of the
unmarshaled schema map; in the total embedding that indexing returns an
Option, and whenever every key of the map is non-empty the none branch is
unreachable, so the filter succeeds. Every key of the reflected schema map
is one of the five non-empty literal keys, hence NewAgentFunction always
returns a tool and never panics. -/
theorem stripMetaKeys_total_on_nonempty_keys :
    (∀ m : List (String × JSON), (∀ p ∈ m, p.1 ≠ "") → (stripMetaKeys m).isSome = true)
    ∧ (∀ s : Shape, ∀ p ∈ reflectSchemaMap s, p.1 ≠ "")
    ∧ (∀ (I : Type) (s : Shape) (n d : String)
        (marshal : ArgsMap → Except String Bytes)
        (unmarshal : Bytes → Except String I)
        (executor : AgentFunctionExecutor I),
        (NewAgentFunction s n d marshal unmarshal executor).isSome = true) := by
  refine ⟨fun m hm => stripMetaKeys_isSome hm, ?_, ?_⟩
  · intro s p hp
    cases h : (requiredNames s).isEmpty with
    | false =>
      simp only [reflectSchemaMap, h, if_true, if_false, Bool.false_eq_true,
        List.append_assoc, List.mem_append, List.mem_cons, List.mem_singleton,
        List.not_mem_nil, or_false, false_or] at hp
      rcases hp with (rfl | rfl | rfl | rfl) | rfl | rfl <;> simp
    | true =>
      simp only [reflectSchemaMap, h, if_true, if_false, Bool.false_eq_true,
        List.append_assoc, List.mem_append, List.mem_cons, List.mem_singleton,
        List.not_mem_nil, or_false, false_or] at hp
      rcases hp with (rfl | rfl | rfl | rfl) | rfl <;> simp
  · intro I s n d marshal unmarshal executor
    rw [newAgentFunction_eq_some]
    rfl

/-- C9 witness: the filter succeeds on a concrete one-entry map whose key
is non-empty. -/
theorem stripMetaKeys_total_witness :
    (stripMetaKeys [("type", JSON.str "object")]).isSome = true :=
  stripMetaKeys_total_on_nonempty_keys.1 [("type", JSON.str "object")]
    (by intro p hp
        rw [List.mem_singleton] at hp
        subst hp
        decide)

theorem stripMetaKeys_no_dollar {m : List (String × JSON)} :
    ∀ {ps}, stripMetaKeys m = some ps → ∀ p ∈ ps, goFirstByte p.1 ≠ some '$' := by
  induction m with
  | nil =>
    intro ps h p hp
    rw [stripMetaKeys] at h
    obtain rfl := Option.some.inj h
    cases hp
  | cons q rest ih =>
    intro ps h p hp
    obtain ⟨k, v⟩ := q
    cases hc : goFirstByte k with
    | none => simp [stripMetaKeys, hc] at h
    | some c =>
      cases hr : stripMetaKeys rest with
      | none => simp [stripMetaKeys, hc, hr] at h
      | some r =>
        simp only [stripMetaKeys, hc, hr] at h
        obtain rfl := Option.some.inj h
        by_cases hcd : c = '$'
        · rw [if_pos hcd] at hp
          exact ih hr p hp
        · rw [if_neg hcd] at hp
          rcases List.mem_cons.mp hp with rfl | hp'
          · show goFirstByte k ≠ some '$'
            intro heq
            rw [hc] at heq
            exact hcd (Option.some.inj heq)
          · exact ih hr p hp'

theorem stripMetaKeys_keeps {m : List (String × JSON)} :
    ∀ {ps}, stripMetaKeys m = some ps →
      ∀ p ∈ m, goFirstByte p.1 ≠ some '$' → p ∈ ps := by
  induction m with
  | nil =>
    intro ps _ p hp
    cases hp
  | cons q rest ih =>
    intro ps h p hp hpd
    obtain ⟨k, v⟩ := q
    cases hc : goFirstByte k with
    | none => simp [stripMetaKeys, hc] at h
    | some c =>
      cases hr : stripMetaKeys rest with
      | none => simp [stripMetaKeys, hc, hr] at h
      | some r =>
        simp only [stripMetaKeys, hc, hr] at h
        obtain rfl := Option.some.inj h
        rcases List.mem_cons.mp hp with rfl | hp'
        · have hcd : c ≠ '$' := by
            intro hceq
            subst hceq
            exact hpd hc
          rw [if_neg hcd]
          exact List.mem_cons_self _ _
        · by_cases hcd : c = '$'
          · rw [if_pos hcd]
            exact ih hr p hp' hpd
          · rw [if_neg hcd]
            exact List.mem_cons_of_mem _ (ih hr p hp' hpd)

/-- C4: the parameter map stored by NewAgentFunction holds no key whose
first byte is the dollar character, and every entry of the reflected
schema map whose key does not begin with a dollar is retained unchanged. -/
theorem params_strip_meta_keys {I : Type} (s : Shape) (n d : String)
    (marshal : ArgsMap → Except String Bytes) (unmarshal : Bytes → Except String I)
    (executor : AgentFunctionExecutor I) (af : AgentFunction ArgsMap)
    (haf : NewAgentFunction s n d marshal unmarshal executor = some af) :
    (∀ p ∈ af.params, goFirstByte p.1 ≠ some '$')
    ∧ (∀ p ∈ reflectSchemaMap s, goFirstByte p.1 ≠ some '$' → p ∈ af.params) := by
  rw [newAgentFunction_eq_some] at haf
  obtain rfl := Option.some.inj haf
  have hps : stripMetaKeys (reflectSchemaMap s) = some (reflectParams s) :=
    stripMetaKeys_reflectSchemaMap s
  exact ⟨stripMetaKeys_no_dollar hps, stripMetaKeys_keeps hps⟩

/-- C4 witness: at the concrete shape wShape, the produced parameter map
has no key led by a dollar and retains every non-metadata entry. -/
theorem params_strip_meta_keys_witness :
    (∀ p ∈ wAf.params, goFirstByte p.1 ≠ some '$')
    ∧ (∀ p ∈ reflectSchemaMap wShape, goFirstByte p.1 ≠ some '$' → p ∈ wAf.params) :=
  params_strip_meta_keys wShape "testFunction" "A test function"
    wMarshal natUnmarshal natExec wAf (by rw [newAgentFunction_eq_some]; rfl)

theorem lookup_reflectParams_type (s : Shape) :
    List.lookup "type" (reflectParams s) = some (JSON.str "object") := by
  unfold reflectParams
  cases h : (requiredNames s).isEmpty <;> rfl

theorem lookup_reflectParams_additionalProperties (s : Shape) :
    List.lookup "additionalProperties" (reflectParams s) = some (JSON.bool false) := by
  unfold reflectParams
  cases h : (requiredNames s).isEmpty <;> rfl

theorem lookup_reflectParams_properties (s : Shape) :
    List.lookup "properties" (reflectParams s) = some (propertiesJSON s) := by
  unfold reflectParams
  cases h : (requiredNames s).isEmpty <;> rfl

theorem lookup_required_of_isEmpty (s : Shape)
    (h : (requiredNames s).isEmpty = true) :
    List.lookup "required" (reflectParams s) = none := by
  unfold reflectParams
  rw [h]
  rfl

theorem lookup_required_of_not_isEmpty (s : Shape)
    (h : (requiredNames s).isEmpty = false) :
    List.lookup "required" (reflectParams s)
      = some (JSON.arr ((requiredNames s).map JSON.str)) := by
  unfold reflectParams
  rw [h]
  rfl

theorem lookup_properties_fields (s : Shape)
    (hnd : (s.map (fun f => f.name)).Nodup) (f : FieldSpec) (hf : f ∈ s) :
    List.lookup f.name (s.map (fun g => (g.name, fieldSchema g)))
      = some (fieldSchema f) := by
  induction s with
  | nil => cases hf
  | cons g t ih =>
    rcases List.mem_cons.mp hf with rfl | hf'
    · simp [List.lookup]
    · have hne : f.name ≠ g.name := by
        intro heq
        have hmem : f.name ∈ t.map (fun x => x.name) :=
          List.mem_map.mpr ⟨f, hf', rfl⟩
        rw [heq] at hmem
        exact (List.nodup_cons.mp hnd).1 hmem
      have hbeq : (f.name == g.name) = false := beq_eq_false_iff_ne.mpr hne
      simp only [List.map_cons, List.lookup, hbeq]
      exact ih (List.nodup_cons.mp hnd).2 hf'

theorem mem_requiredNames_iff (s : Shape)
    (hnd : (s.map (fun f => f.name)).Nodup) (f : FieldSpec) (hf : f ∈ s) :
    f.required = true ↔ f.name ∈ requiredNames s := by
  constructor
  · intro hreq
    exact List.mem_map.mpr ⟨f, List.mem_filter.mpr ⟨hf, hreq⟩, rfl⟩
  · intro hmem
    obtain ⟨g, hg, hgname⟩ := List.mem_map.mp hmem
    obtain ⟨hgs, hgreq⟩ := List.mem_filter.mp hg
    have hgf : g = f := List.inj_on_of_nodup_map hnd hgs hf hgname
    rw [← hgf]
    exact hgreq

theorem lookup_fieldSchemaFields_type (f : FieldSpec) :
    List.lookup "type" (fieldSchemaFields f) = some (JSON.str f.ty) := rfl

theorem lookup_fieldSchemaFields_description_some (f : FieldSpec) (d : String)
    (hd : f.description = some d) :
    List.lookup "description" (fieldSchemaFields f) = some (JSON.str d) := by
  unfold fieldSchemaFields
  rw [hd]
  rfl

theorem lookup_fieldSchemaFields_description_none (f : FieldSpec)
    (hd : f.description = none) :
    List.lookup "description" (fieldSchemaFields f) = none := by
  unfold fieldSchemaFields
  rw [hd]
  rfl

/-- C1 (amended): the parameter schema map produced by NewAgentFunction
contains type object, additionalProperties false, and a properties entry
mapping each field to its per-field schema: its primitive type, with its
description exactly when one is declared. When at least one field is
marked required the map holds a required list with exactly the names of
the required fields in declaration order; when no field is marked
required the required key is absent, because the underlying Go slice is
serialized with omitempty rather than as an empty list. Hence a field
marked required with a description appears both in the required list and
with that description under properties, and an unmarked field appears in
properties without a description and is absent from required. -/
theorem newAgentFunction_schema_contents {I : Type} (s : Shape) (n d : String)
    (marshal : ArgsMap → Except String Bytes) (unmarshal : Bytes → Except String I)
    (executor : AgentFunctionExecutor I) (af : AgentFunction ArgsMap)
    (haf : NewAgentFunction s n d marshal unmarshal executor = some af)
    (hnd : (s.map (fun f => f.name)).Nodup) :
    List.lookup "type" af.params = some (JSON.str "object")
    ∧ List.lookup "additionalProperties" af.params = some (JSON.bool false)
    ∧ List.lookup "properties" af.params = some (propertiesJSON s)
    ∧ (∀ f ∈ s, List.lookup f.name (s.map (fun g => (g.name, fieldSchema g)))
        = some (fieldSchema f))
    ∧ ((requiredNames s).isEmpty = true →
        List.lookup "required" af.params = none)
    ∧ ((requiredNames s).isEmpty = false →
        List.lookup "required" af.params
          = some (JSON.arr ((requiredNames s).map JSON.str)))
    ∧ (∀ f ∈ s, (f.required = true ↔ f.name ∈ requiredNames s))
    ∧ (∀ f : FieldSpec, List.lookup "type" (fieldSchemaFields f)
        = some (JSON.str f.ty))
    ∧ (∀ (f : FieldSpec) (dd : String), f.description = some dd →
        List.lookup "description" (fieldSchemaFields f) = some (JSON.str dd))
    ∧ (∀ f : FieldSpec, f.description = none →
        List.lookup "description" (fieldSchemaFields f) = none) := by
  rw [newAgentFunction_eq_some] at haf
  obtain rfl := Option.some.inj haf
  exact ⟨lookup_reflectParams_type s,
    lookup_reflectParams_additionalProperties s,
    lookup_reflectParams_properties s,
    fun f hf => lookup_properties_fields s hnd f hf,
    fun h => lookup_required_of_isEmpty s h,
    fun h => lookup_required_of_not_isEmpty s h,
    fun f hf => mem_requiredNames_iff s hnd f hf,
    fun f => lookup_fieldSchemaFields_type f,
    fun f dd hd => lookup_fieldSchemaFields_description_some f dd hd,
    fun f hd => lookup_fieldSchemaFields_description_none f hd⟩

/-- C1 witness: at the concrete required-and-described shape wShape the
hypotheses hold and the schema map has the expected type entry. -/
theorem newAgentFunction_schema_contents_witness :
    (wShape.map (fun f => f.name)).Nodup
    ∧ List.lookup "type" wAf.params = some (JSON.str "object") :=
  ⟨by decide,
    (newAgentFunction_schema_contents wShape "testFunction" "A test function"
      wMarshal natUnmarshal natExec wAf (by rw [newAgentFunction_eq_some]; rfl)
      (by decide)).1⟩

/-- A stand-in for json.Unmarshal at a trivial typed shape. -/
def unitUnmarshal : Bytes → Except String Unit := fun _ => Except.ok ()

/-- A trivial typed executor. -/
def unitExec : AgentFunctionExecutor Unit :=
  fun _ _ => { Success := true, Data := JSON.str "Function executed successfully" }

/-- A typed argument shape mirroring TestFunctionArgs from
src/swarm_test.go: one integer field arg1 with no jsonschema tag. -/
def cShape : Shape :=
  [{ name := "arg1", ty := "integer", required := false, description := none }]

/-- The tool NewAgentFunction builds from cShape. -/
def cAf : AgentFunction ArgsMap :=
  { Name := "testFunction", Description := "A test function",
    params := reflectParams cShape,
    executor := erasedExecutor wMarshal unitUnmarshal unitExec }

/-- C1 counterexample: for the shape with a single field arg1 not marked
required (the shape of TestFunctionArgs in src/swarm_test.go, whose
expected schema in TestFunctionToDefinitionBasic has no required key),
the parameter map produced by NewAgentFunction contains no required entry
at all, rather than a required list that is empty; so the map does not
contain a required list holding exactly the required field names. -/
theorem required_key_absent_when_no_required_field :
    NewAgentFunction cShape "testFunction" "A test function"
        wMarshal unitUnmarshal unitExec = some cAf
    ∧ requiredNames cShape = []
    ∧ List.lookup "required" cAf.params = none
    ∧ ¬ ∃ l, List.lookup "required" cAf.params = some (JSON.arr l) := by
  refine ⟨by rw [newAgentFunction_eq_some]; rfl, rfl, rfl, ?_⟩
  rintro ⟨l, hl⟩
  exact Option.noConfusion hl

/-- C7: schema generation is a function of the typed argument shape
alone: two calls of NewAgentFunction on the same shape produce equal
parameter maps even with different names, descriptions, encoders,
decoders, executors and concrete argument types; and when the names and
descriptions also agree, FunctionToDefinition yields equal definitions,
since a definition carries only the name, the description and the
parameter map. -/
theorem schema_generation_deterministic {I J : Type} (s : Shape)
    (n1 d1 : String) (marshal1 : ArgsMap → Except String Bytes)
    (unmarshal1 : Bytes → Except String I) (executor1 : AgentFunctionExecutor I)
    (n2 d2 : String) (marshal2 : ArgsMap → Except String Bytes)
    (unmarshal2 : Bytes → Except String J) (executor2 : AgentFunctionExecutor J)
    (af1 af2 : AgentFunction ArgsMap)
    (h1 : NewAgentFunction s n1 d1 marshal1 unmarshal1 executor1 = some af1)
    (h2 : NewAgentFunction s n2 d2 marshal2 unmarshal2 executor2 = some af2) :
    af1.params = af2.params
    ∧ (n1 = n2 → d1 = d2 → FunctionToDefinition af1 = FunctionToDefinition af2) := by
  rw [newAgentFunction_eq_some] at h1 h2
  obtain rfl := Option.some.inj h1
  obtain rfl := Option.some.inj h2
  refine ⟨rfl, ?_⟩
  rintro rfl rfl
  rfl

/-- A second tool over the same shape as wAf with a different concrete
argument type and executor. -/
def wAf2 : AgentFunction ArgsMap :=
  { Name := "testFunction", Description := "A test function",
    params := reflectParams wShape,
    executor := erasedExecutor wMarshal unitUnmarshal unitExec }

/-- C7 witness: two tools compiled over wShape with different typed
executors share the parameter map and yield the same definition. -/
theorem schema_generation_deterministic_witness :
    wAf.params = wAf2.params
    ∧ FunctionToDefinition wAf = FunctionToDefinition wAf2 := by
  have h := schema_generation_deterministic wShape
    "testFunction" "A test function" wMarshal natUnmarshal natExec
    "testFunction" "A test function" wMarshal unitUnmarshal unitExec
    wAf wAf2 (by rw [newAgentFunction_eq_some]; rfl)
    (by rw [newAgentFunction_eq_some]; rfl)
  exact ⟨h.1, h.2 rfl rfl⟩

end SwarmGo
